import Mathlib

/-!
Shallow embedding of the authorization core of the `test-task-mobile`
repository: the permission decision engine (`PermissionService` in
`src/core/services/permission_service.py`), the role-hierarchy resolver,
the scope and condition evaluators, the resource endpoints
(`src/api/resources.py`), the token revocation flow (`src/api/auth.py`,
`src/core/security.py`) and the password hashing helpers.

Database rows are modelled as Lean structures, SQLAlchemy queries as
list filters over an explicit `DB` state, and `datetime.utcnow()` as an
explicit `now : Int` parameter (seconds).  Python exceptions that escape
the modelled code are `Except.error`.  Timestamp bookkeeping columns
(`created_at`, `updated_at`) that no decision logic reads are omitted.
-/

namespace AccessControl

/-- Mirror of `ActionType` in `src/database/models/enums.py`. -/
inductive ActionType
  | create | read | update | delete | execute | share
deriving DecidableEq

/-- Mirror of `PermissionScope` in `src/database/models/enums.py`. -/
inductive PermissionScope
  | own | department | all
deriving DecidableEq

/-- A JSON scalar appearing as the expected value of a condition entry.
`json.loads` can produce booleans, numbers, strings, `null`, and
containers (collapsed to `jother`, which compares unequal to the Python
`bool`/`str` attributes the evaluator looks at). -/
inductive JVal
  | jbool (b : Bool)
  | jnum (n : Int)
  | jstr (s : String)
  | jnull
  | jother
deriving DecidableEq

/-- Outcome space of the `conditions` column of `role_permissions` as seen
by `PermissionService._check_conditions`.  The column is
`Optional[str]`; the Python code first tests the string for falsiness
(`absent` covers `None` and `""`), then runs `json.loads` which either
raises `JSONDecodeError` (`invalidJson`, e.g. the string `"{bad"`),
returns a dict (`obj`, e.g. `"\x7b\"resource.is_archived\": false\x7d"`),
or returns a non-dict JSON value (`nonObj`, e.g. the string `"[1, 2]"`
or `"5"`). -/
inductive CondPayload
  | absent
  | invalidJson
  | obj (entries : List (String × JVal))
  | nonObj
deriving DecidableEq

/-- Mirror of `Department` (`src/database/models/user.py`), keeping the
field the condition evaluator reads. -/
structure Department where
  code : String
deriving DecidableEq

/-- Mirror of `Role` (`src/database/models/user.py`). -/
structure Role where
  id : Nat
  priority : Int
  is_active : Bool
  parent_role_id : Option Nat
deriving DecidableEq

/-- Mirror of a `user_roles` row joined with its role, as the
`User.roles` relationship materialises it.  `expires_at` is the
membership expiry column of `UserRole`. -/
structure Membership where
  role : Role
  expires_at : Option Int
deriving DecidableEq

/-- Mirror of `User` (`src/database/models/user.py`). -/
structure User where
  id : Nat
  is_superuser : Bool
  department_id : Option Nat
  department : Option Department
  memberships : List Membership
deriving DecidableEq

/-- Mirror of `Resource` (`src/database/models/resource.py`), with the
loaded `owner` and category attributes the service reads. -/
structure Resource where
  id : Nat
  category_id : Nat
  owner_id : Nat
  owner : User
  title : String
  content : String
  is_public : Bool
  is_archived : Bool
  category_code : String
  resource_type : String
deriving DecidableEq

/-- Mirror of `RolePermission` (`src/database/models/permission.py`). -/
structure RolePermission where
  role_id : Nat
  category_id : Nat
  action : ActionType
  scope : PermissionScope
  conditions : CondPayload
  is_allowed : Bool
deriving DecidableEq

/-- Mirror of `UserPermission` (`src/database/models/permission.py`). -/
structure UserPermission where
  user_id : Nat
  resource_id : Nat
  action : ActionType
  is_allowed : Bool
  granted_by : Option Nat
  granted_at : Int
  expires_at : Option Int
deriving DecidableEq

/-- Mirror of an `AuditLog` row as built by
`PermissionService._log_access`; `reason` stands for the
`details = json.dumps({"reason": reason})` payload. -/
structure AuditEntry where
  user_id : Nat
  resource_id : Nat
  action : ActionType
  resource_type : String
  success : Bool
  reason : Option String
deriving DecidableEq

/-- Mirror of `ResourceCategory`, keeping the fields `list_resources`
reads. -/
structure Category where
  id : Nat
  code : String
deriving DecidableEq

/-- The database state the permission service queries. -/
structure DB where
  roles : List Role
  role_permissions : List RolePermission
  user_permissions : List UserPermission
  resources : List Resource
  categories : List Category
deriving DecidableEq

/-- Python truthiness of an `int | None` column: `None` and `0` are
falsy. -/
def natTruthy : Option Nat → Bool
  | none => false
  | some n => n != 0

/-- The audit row `_log_access` appends. -/
def mkAudit (user : User) (resource : Resource) (action : ActionType)
    (success : Bool) (reason : Option String) : AuditEntry :=
  ⟨user.id, resource.id, action, resource.resource_type, success, reason⟩

/-- Python `==` between the `bool` attribute `resource.is_archived` and a
JSON value (`True == 1` and `False == 0` hold in Python). -/
def pyEqBoolJ (b : Bool) : JVal → Bool
  | .jbool c => b == c
  | .jnum n => if b then n == 1 else n == 0
  | _ => false

/-- Python `==` between the `str` attribute `department.code` and a JSON
value. -/
def pyEqStrJ (s : String) : JVal → Bool
  | .jstr t => s == t
  | _ => false

/-- The `for key, value in cond_dict.items()` loop of
`PermissionService._check_conditions`: recognized keys must hold, any
other key is skipped. -/
def condEntryLoop (user : User) (resource : Resource) :
    List (String × JVal) → Bool
  | [] => true
  | (k, v) :: rest =>
    if k == "resource.is_archived" then
      if pyEqBoolJ resource.is_archived v then condEntryLoop user resource rest
      else false
    else if k == "user.department.code" then
      match user.department with
      | none => false
      | some d =>
        if pyEqStrJ d.code v then condEntryLoop user resource rest
        else false
    else condEntryLoop user resource rest

/-- `PermissionService._check_conditions`: a falsy payload passes, a
`JSONDecodeError` is caught and passes, a parsed dict runs the key loop,
and a parsed non-dict raises `AttributeError` on `.items()` which the
`except json.JSONDecodeError` handler does not catch (`Except.error`). -/
def checkConditions (user : User) (resource : Resource) :
    CondPayload → Except Unit Bool
  | .absent => .ok true
  | .invalidJson => .ok true
  | .obj entries => .ok (condEntryLoop user resource entries)
  | .nonObj => .error ()

/-- `PermissionService._check_scope`.  The DEPARTMENT arm replicates the
Python truthiness test `if user.department_id and
resource.owner.department_id`. -/
def checkScope (user : User) (resource : Resource) :
    PermissionScope → Bool
  | .all => true
  | .own => resource.owner_id == user.id
  | .department =>
    if natTruthy user.department_id && natTruthy resource.owner.department_id then
      user.department_id == resource.owner.department_id
    else false

/-- `self.session.get(Role, pid)`: primary-key lookup in the role
table. -/
def rolesGet (table : List Role) (pid : Nat) : Option Role :=
  table.find? (fun r => r.id == pid)

/-- The set of role ids occurring in a list of roles. -/
def roleIds (l : List Role) : Finset Nat :=
  (l.map Role.id).toFinset

/-- Termination measure for the breadth-first role walk: twice the
number of not-yet-processed role ids that could still enter the queue,
plus the queue length. -/
def expandMeasure (table queue : List Role) (processed : Finset Nat) : Nat :=
  2 * ((roleIds table ∪ roleIds queue) \ processed).card + queue.length

theorem roleIds_cons_subset (r : Role) (rest : List Role) :
    roleIds rest ⊆ roleIds (r :: rest) := by
  intro x hx
  simp only [roleIds, List.map_cons, List.toFinset_cons, Finset.mem_insert]
  exact Or.inr hx

theorem expandMeasure_skip (table : List Role) (r : Role) (rest : List Role)
    (processed : Finset Nat) :
    expandMeasure table rest processed <
      expandMeasure table (r :: rest) processed := by
  have hsub : (roleIds table ∪ roleIds rest) \ processed ⊆
      (roleIds table ∪ roleIds (r :: rest)) \ processed := by
    intro x hx
    rcases Finset.mem_sdiff.mp hx with ⟨hx1, hx2⟩
    refine Finset.mem_sdiff.mpr ⟨?_, hx2⟩
    rcases Finset.mem_union.mp hx1 with h | h
    · exact Finset.mem_union_left _ h
    · exact Finset.mem_union_right _ (roleIds_cons_subset r rest h)
  have hcard := Finset.card_le_card hsub
  simp only [expandMeasure, List.length_cons]
  omega

theorem expandMeasure_insert (table : List Role) (r : Role) (rest : List Role)
    (processed : Finset Nat) (newQ : List Role)
    (hnot : r.id ∉ processed)
    (hsub : roleIds newQ ⊆ roleIds table ∪ roleIds rest)
    (hlen : newQ.length ≤ rest.length + 1) :
    expandMeasure table newQ (insert r.id processed) <
      expandMeasure table (r :: rest) processed := by
  have hrid : r.id ∈ (roleIds table ∪ roleIds (r :: rest)) \ processed := by
    refine Finset.mem_sdiff.mpr ⟨?_, hnot⟩
    refine Finset.mem_union_right _ ?_
    simp [roleIds]
  have hsub2 : (roleIds table ∪ roleIds newQ) \ insert r.id processed ⊆
      (((roleIds table ∪ roleIds (r :: rest)) \ processed).erase r.id) := by
    intro x hx
    rcases Finset.mem_sdiff.mp hx with ⟨hx1, hx2⟩
    have hxne : x ≠ r.id := fun h => hx2 (h ▸ Finset.mem_insert_self _ _)
    have hxnp : x ∉ processed := fun h =>
      hx2 (Finset.mem_insert_of_mem h)
    refine Finset.mem_erase.mpr ⟨hxne, Finset.mem_sdiff.mpr ⟨?_, hxnp⟩⟩
    rcases Finset.mem_union.mp hx1 with h | h
    · exact Finset.mem_union_left _ h
    · rcases Finset.mem_union.mp (hsub h) with h2 | h2
      · exact Finset.mem_union_left _ h2
      · exact Finset.mem_union_right _ (roleIds_cons_subset r rest h2)
  have hcard := Finset.card_le_card hsub2
  rw [Finset.card_erase_of_mem hrid] at hcard
  have hpos : 0 < ((roleIds table ∪ roleIds (r :: rest)) \ processed).card :=
    Finset.card_pos.mpr ⟨r.id, hrid⟩
  simp only [expandMeasure, List.length_cons]
  omega

theorem roleIds_append (l1 l2 : List Role) :
    roleIds (l1 ++ l2) = roleIds l1 ∪ roleIds l2 := by
  simp [roleIds, List.toFinset_append]

theorem rolesGet_mem {table : List Role} {pid : Nat} {p : Role}
    (h : rolesGet table pid = some p) : p ∈ table :=
  List.mem_of_find?_eq_some h

/-- The `if role.parent_role_id:` tail of the
`_get_all_user_roles` loop body: when the parent pointer is truthy, the
parent role is fetched by primary key and enqueued iff it exists and is
active; a missing or inactive parent terminates that branch. -/
def parentToEnqueue (table : List Role) (r : Role) : List Role :=
  if natTruthy r.parent_role_id then
    match rolesGet table (r.parent_role_id.getD 0) with
    | some parent => if parent.is_active then [parent] else []
    | none => []
  else []

theorem mem_parentToEnqueue {table : List Role} {r x : Role}
    (h : x ∈ parentToEnqueue table r) :
    x ∈ table ∧ x.is_active = true := by
  unfold parentToEnqueue at h
  split at h
  · split at h
    · rename_i parent heq
      split at h
      · rcases List.mem_singleton.mp h with rfl
        exact ⟨rolesGet_mem heq, by assumption⟩
      · exact absurd h (List.not_mem_nil x)
    · exact absurd h (List.not_mem_nil x)
  · exact absurd h (List.not_mem_nil x)

theorem parentToEnqueue_length (table : List Role) (r : Role) :
    (parentToEnqueue table r).length ≤ 1 := by
  unfold parentToEnqueue
  split
  · split
    · split <;> simp
    · simp
  · simp

theorem roleIds_parentToEnqueue (table : List Role) (r : Role) :
    roleIds (parentToEnqueue table r) ⊆ roleIds table := by
  intro x hx
  simp only [roleIds, List.mem_toFinset, List.mem_map] at hx ⊢
  obtain ⟨p, hp, hpid⟩ := hx
  exact ⟨p, (mem_parentToEnqueue hp).1, hpid⟩

/-- `PermissionService._get_all_user_roles` while-loop:
`queue` is `roles_to_process`, `processed` is `processed_ids`, `acc` is
`all_roles`. -/
def expandRoles (table : List Role) :
    List Role → Finset Nat → List Role → List Role
  | [], _, acc => acc
  | r :: rest, processed, acc =>
    if r.id ∈ processed then
      expandRoles table rest processed acc
    else
      expandRoles table (rest ++ parentToEnqueue table r)
        (insert r.id processed) (acc ++ [r])
  termination_by queue processed _ => expandMeasure table queue processed
  decreasing_by
  · exact expandMeasure_skip table r rest processed
  · refine expandMeasure_insert table r rest processed _ (by assumption) ?_ ?_
    · intro x hx
      rw [roleIds_append] at hx
      rcases Finset.mem_union.mp hx with h | h
      · exact Finset.mem_union_right _ h
      · exact Finset.mem_union_left _ (roleIds_parentToEnqueue table r h)
    · have := parentToEnqueue_length table r
      simp only [List.length_append]
      omega

/-- The `User.roles` relationship (`src/database/models/user.py` lines
63–71): it joins through `user_roles` on user id and role id only —
`UserRole.expires_at` does not appear in the join condition, so expired
memberships are included. -/
def userRolesRel (user : User) : List Role :=
  user.memberships.map Membership.role

/-- `PermissionService._get_all_user_roles`. -/
def getAllUserRoles (table : List Role) (user : User) : List Role :=
  expandRoles table (userRolesRel user) ∅ []

/-- Stable descending insertion, matching Python's stable
`sorted(..., key=lambda r: r.priority, reverse=True)`. -/
def insertRoleDesc (x : Role) : List Role → List Role
  | [] => [x]
  | y :: ys => if y.priority < x.priority then x :: y :: ys
               else y :: insertRoleDesc x ys

/-- `sorted(all_roles, key=lambda r: r.priority, reverse=True)`. -/
def sortRolesDesc (l : List Role) : List Role :=
  l.foldl (fun acc x => insertRoleDesc x acc) []

/-- The WHERE clause of `_check_user_permission` restricted to one row:
matching triple and `expires_at IS NULL OR expires_at > utcnow()`. -/
def matchesTriple (uid rid : Nat) (a : ActionType) (p : UserPermission) : Bool :=
  p.user_id == uid && p.resource_id == rid && p.action == a

/-- `expires_at IS NULL OR expires_at > utcnow()`. -/
def effectiveRow (now : Int) (p : UserPermission) : Bool :=
  match p.expires_at with
  | none => true
  | some t => now < t

/-- `ORDER BY granted_at DESC LIMIT 1`: the first row attaining the
maximal `granted_at` among the candidates. -/
def pickLatest : List UserPermission → Option UserPermission
  | [] => none
  | p :: ps =>
    match pickLatest ps with
    | none => some p
    | some q => if p.granted_at < q.granted_at then some q else some p

/-- `PermissionService._check_user_permission`: `None` when no effective
override row exists, otherwise the `is_allowed` flag of the most
recently granted effective row. -/
def checkUserPermission (db : DB) (now : Int) (uid rid : Nat)
    (a : ActionType) : Option Bool :=
  (pickLatest (db.user_permissions.filter
    (fun p => matchesTriple uid rid a p && effectiveRow now p))).map
    UserPermission.is_allowed

/-- The inner `for perm in permissions` loop of
`_check_role_permissions`: the first grant whose scope and conditions
both match settles the role with its `is_allowed`; a condition
evaluation error propagates. -/
def grantLoop (user : User) (resource : Resource) :
    List RolePermission → Except Unit (Option Bool)
  | [] => .ok none
  | p :: ps =>
    if checkScope user resource p.scope then
      match checkConditions user resource p.conditions with
      | .error e => .error e
      | .ok true => .ok (some p.is_allowed)
      | .ok false => grantLoop user resource ps
    else grantLoop user resource ps

/-- The outer `for role in sorted_roles` loop of
`_check_role_permissions`, with the per-role grant query
`role_id == role.id AND category_id == resource.category_id AND
action == action` as a list filter. -/
def roleLoop (db : DB) (user : User) (resource : Resource)
    (action : ActionType) : List Role → Except Unit Bool
  | [] => .ok false
  | role :: rs =>
    match grantLoop user resource (db.role_permissions.filter
        (fun p => p.role_id == role.id &&
          p.category_id == resource.category_id && p.action == action)) with
    | .error e => .error e
    | .ok (some b) => .ok b
    | .ok none => roleLoop db user resource action rs

/-- `PermissionService._check_role_permissions`. -/
def checkRolePermissions (db : DB) (user : User) (resource : Resource)
    (action : ActionType) : Except Unit Bool :=
  roleLoop db user resource action
    (sortRolesDesc (getAllUserRoles db.roles user))

/-- `PermissionService.check_permission`.  The result pairs the returned
boolean with the audit entries appended by `_log_access` during the
call (at most one). -/
def checkPermission (db : DB) (now : Int) (user : User) (resource : Resource)
    (action : ActionType) (logAttempt : Bool) :
    Except Unit (Bool × List AuditEntry) :=
  if user.is_superuser then
    .ok (true, if logAttempt then
      [mkAudit user resource action true (some "superuser")] else [])
  else
    match checkUserPermission db now user.id resource.id action with
    | some b =>
      .ok (b, if logAttempt then
        [mkAudit user resource action b (some "personal")] else [])
    | none =>
      if resource.owner_id == user.id then
        .ok (true, if logAttempt then
          [mkAudit user resource action true (some "owner")] else [])
      else if resource.is_public && action == ActionType.read then
        .ok (true, if logAttempt then
          [mkAudit user resource action true (some "public")] else [])
      else
        match checkRolePermissions db user resource action with
        | .error e => .error e
        | .ok b =>
          .ok (b, if logAttempt then
            [mkAudit user resource action b
              (some (if b then "role" else "denied"))] else [])

/-- The `session.scalar(select(UserPermission).where(...))` lookup in
`grant_user_permission`: first row matching the (user, resource, action)
triple. -/
def findFirstPerm (uid rid : Nat) (a : ActionType)
    (l : List UserPermission) : Option UserPermission :=
  l.find? (matchesTriple uid rid a)

/-- In-place mutation of the fetched override row: the first matching
row gets `is_allowed := True`, `granted_by`, `granted_at` and
`expires_at` refreshed; all other rows are untouched. -/
def setFirstMatch (uid rid : Nat) (a : ActionType) (granterId : Nat)
    (now : Int) (exp : Option Int) :
    List UserPermission → List UserPermission
  | [] => []
  | p :: ps =>
    if matchesTriple uid rid a p then
      { p with is_allowed := true, granted_by := some granterId,
               granted_at := now, expires_at := exp } :: ps
    else p :: setFirstMatch uid rid a granterId now exp ps

/-- `PermissionService.grant_user_permission`.  The `granted_at` of a
freshly inserted row is the column default `datetime.utcnow`. -/
def grantUserPermission (db : DB) (now : Int) (granter : User)
    (targetUserId : Nat) (resource : Resource) (action : ActionType)
    (expiresAt : Option Int) : Except Unit (Bool × DB) :=
  match checkPermission db now granter resource .share false with
  | .error e => .error e
  | .ok (canShare, _) =>
    if !canShare && resource.owner_id != granter.id then
      .ok (false, db)
    else
      match findFirstPerm targetUserId resource.id action db.user_permissions with
      | some _ =>
        let perms := setFirstMatch targetUserId resource.id action
          granter.id now expiresAt db.user_permissions
        .ok (true, { db with user_permissions := perms })
      | none =>
        let row : UserPermission := ⟨targetUserId, resource.id, action,
          true, some granter.id, now, expiresAt⟩
        .ok (true, { db with user_permissions := db.user_permissions ++ [row] })

/-! ## Resource endpoints (`src/api/resources.py`) -/

/-- HTTP outcome of an endpoint call: `ok`, `404`, `403`, or an
unhandled exception (500). -/
inductive ApiStatus
  | ok | notFound | forbidden | serverError
deriving DecidableEq

/-- `GET /resources/{id}`: fetch, then `if not resource or
resource.is_archived: 404`, then `check_permission(..., READ)` with
audit logging on. -/
def getResource (db : DB) (now : Int) (user : User) (rid : Nat) :
    ApiStatus × List AuditEntry :=
  match db.resources.find? (fun r => r.id == rid) with
  | none => (.notFound, [])
  | some res =>
    if res.is_archived then (.notFound, [])
    else
      match checkPermission db now user res .read true with
      | .error _ => (.serverError, [])
      | .ok (true, lg) => (.ok, lg)
      | .ok (false, lg) => (.forbidden, lg)

/-- Replace the row with the given resource's id (ORM object
mutation followed by commit). -/
def replaceResource (db : DB) (res : Resource) : DB :=
  let rows := db.resources.map (fun r => if r.id == res.id then res else r)
  { db with resources := rows }

/-- `PUT /resources/{id}`: fetch, 404 on missing/archived, UPDATE
permission check, then field-wise patch of title/content/is_public. -/
def updateResource (db : DB) (now : Int) (user : User) (rid : Nat)
    (newTitle newContent : Option String) (newPublic : Option Bool) :
    ApiStatus × DB × List AuditEntry :=
  match db.resources.find? (fun r => r.id == rid) with
  | none => (.notFound, db, [])
  | some res =>
    if res.is_archived then (.notFound, db, [])
    else
      match checkPermission db now user res .update true with
      | .error _ => (.serverError, db, [])
      | .ok (false, lg) => (.forbidden, db, lg)
      | .ok (true, lg) =>
        let res' := { res with
          title := newTitle.getD res.title,
          content := newContent.getD res.content,
          is_public := newPublic.getD res.is_public }
        (.ok, replaceResource db res', lg)

/-- `DELETE /resources/{id}`: fetch, 404 on missing/archived, DELETE
permission check, then soft delete via `is_archived = True`. -/
def deleteResource (db : DB) (now : Int) (user : User) (rid : Nat) :
    ApiStatus × DB × List AuditEntry :=
  match db.resources.find? (fun r => r.id == rid) with
  | none => (.notFound, db, [])
  | some res =>
    if res.is_archived then (.notFound, db, [])
    else
      match checkPermission db now user res .delete true with
      | .error _ => (.serverError, db, [])
      | .ok (false, lg) => (.forbidden, db, lg)
      | .ok (true, lg) =>
        (.ok, replaceResource db { res with is_archived := true }, lg)

/-- The `for resource in all_resources` loop of `list_resources`:
keep the resources the actor may READ (`log_attempt=False`); a
permission-check exception aborts the request. -/
def filterAccessible (db : DB) (now : Int) (user : User) :
    List Resource → Except Unit (List Resource)
  | [] => .ok []
  | r :: rs =>
    match checkPermission db now user r .read false with
    | .error e => .error e
    | .ok (true, _) => (filterAccessible db now user rs).map (r :: ·)
    | .ok (false, _) => filterAccessible db now user rs

/-- `GET /resources`: base query `WHERE is_archived == False`, optional
category filter (404 on unknown code), then the permission filter. -/
def listResources (db : DB) (now : Int) (user : User)
    (categoryCode : Option String) :
    Except Unit (ApiStatus × List Resource) :=
  let base := db.resources.filter (fun r => !r.is_archived)
  match categoryCode with
  | none => (filterAccessible db now user base).map (fun l => (.ok, l))
  | some code =>
    match db.categories.find? (fun c => c.code == code) with
    | none => .ok (.notFound, [])
    | some cat =>
      (filterAccessible db now user
        (base.filter (fun r => r.category_id == cat.id))).map
        (fun l => (.ok, l))

/-! ## Token revocation (`src/core/security.py`, `src/api/auth.py`) -/

/-- The Redis store holding `jwt_blacklist:*` keys, each with its
absolute expiry instant (`SETEX` key ttl value). -/
structure RedisStore where
  entries : List (String × Int)
deriving DecidableEq

/-- `SETEX key ttl 1`: the key exists until `ttl` seconds have
elapsed. -/
def setex (st : RedisStore) (now : Int) (key : String) (ttl : Int) :
    RedisStore :=
  ⟨(key, now + ttl) :: st.entries⟩

/-- `EXISTS key` at a given instant: some entry with that key has not
yet reached its expiry. -/
def existsKey (st : RedisStore) (now : Int) (key : String) : Bool :=
  st.entries.any (fun e => e.1 == key && now < e.2)

/-- `blacklist_token(jti, ttl)` (`src/core/security.py`). -/
def blacklistToken (st : RedisStore) (now : Int) (jti : String)
    (ttl : Int) : RedisStore :=
  setex st now ("jwt_blacklist:" ++ jti) ttl

/-- `is_token_blacklisted(jti)` (`src/core/security.py`). -/
def isTokenBlacklisted (st : RedisStore) (now : Int) (jti : String) : Bool :=
  existsKey st now ("jwt_blacklist:" ++ jti)

/-- Python truthiness of the `jti` payload field (`str | None`):
`None` and `""` are falsy. -/
def strTruthy : Option String → Bool
  | none => false
  | some s => s != ""

/-- Python truthiness of the `exp` payload field (`int | None`). -/
def intTruthy : Option Int → Bool
  | none => false
  | some n => n != 0

/-- `POST /auth/logout` (`logout_user` in `src/api/auth.py`) after a
successful `decode_token` — so the token's signature has already
validated.  `payloadJti`/`payloadExp` are `payload.get("jti")` /
`payload.get("exp")`; the error value is the HTTP status of the raised
`HTTPException`; on success the boolean mirrors `AuthResponse.success`
and the store is the (possibly updated) revocation store. -/
def logoutUser (st : RedisStore) (now : Int) (payloadJti : Option String)
    (payloadExp : Option Int) : Except Nat (Bool × RedisStore) :=
  if !strTruthy payloadJti || !intTruthy payloadExp then
    .error 400
  else
    let jti := payloadJti.getD ""
    let exp := payloadExp.getD 0
    let ttl := exp - now
    if ttl ≤ 0 then
      .ok (true, st)
    else
      .ok (true, blacklistToken st now jti ttl)

/-! ## Password hashing (`src/core/security.py`) -/

/-- Python `password[:72]`: truncation to the first 72 characters. -/
def pyTruncate (s : String) (n : Nat) : String :=
  ⟨s.data.take n⟩

/-- `hash_password`, with `pwdHash` standing for the salted
`pwd_context.hash` of passlib's `pbkdf2_sha256` scheme: the input is
truncated to 72 characters before hashing. -/
def hashPassword (pwdHash : String → String) (password : String) : String :=
  pwdHash (pyTruncate password 72)

/-- `verify_password`: `pwd_context.verify(plain, hashed)` succeeds
exactly when re-hashing the full, untruncated `plain` reproduces
`hashed` (idealizing `pwdHash` as deterministic per salt and
collision-free). -/
def verifyPassword (pwdHash : String → String) (plain hashed : String) :
    Bool :=
  pwdHash plain == hashed

/-! ## Concrete sample values used by witnesses and counterexamples -/

/-- A user in department 0 (a non-null department id that is falsy in
Python). -/
def uDept0 : User := ⟨1, false, some 0, none, []⟩

/-- An owner in department 0. -/
def ownerDept0 : User := ⟨2, false, some 0, none, []⟩

/-- A resource owned by `ownerDept0`. -/
def resDept0 : Resource :=
  ⟨10, 1, 2, ownerDept0, "t", "c", false, false, "documents", "document"⟩

/-- A user with no department. -/
def uNoDept : User := ⟨3, false, none, none, []⟩

/-- A plain user for condition-evaluator inputs. -/
def uCond : User := ⟨4, false, none, none, []⟩

/-- A plain resource for condition-evaluator inputs. -/
def resCond : Resource :=
  ⟨11, 1, 2, ownerDept0, "t", "c", false, false, "documents", "document"⟩

/-- A superuser. -/
def suUser : User := ⟨5, true, none, none, []⟩

/-- A non-superuser with no roles and no department. -/
def plainUser : User := ⟨6, false, none, none, []⟩

/-- A non-public, non-archived resource owned by user 2. -/
def resMain : Resource :=
  ⟨20, 1, 2, ownerDept0, "t", "c", false, false, "documents", "document"⟩

/-- A database holding one non-expired personal override row denying
READ on `resMain` to `plainUser`. -/
def dbMain : DB := ⟨[], [], [⟨6, 20, .read, false, none, 5, none⟩], [], []⟩

/-- A database with two override rows for `plainUser` on `resMain`
READ: an allow row granted at 50 that expired at time 10, and a
non-expiring deny row granted at 1. -/
def dbC6 : DB :=
  ⟨[], [], [⟨6, 20, .read, true, none, 50, some 10⟩,
            ⟨6, 20, .read, false, none, 1, none⟩], [], []⟩

/-- A role whose parent link points at `roleB`, forming a cycle. -/
def roleA : Role := ⟨1, 5, true, some 2⟩

/-- A role whose parent link points back at `roleA`. -/
def roleB : Role := ⟨2, 3, true, some 1⟩

/-- A role table with a parent cycle 1 → 2 → 1. -/
def tblC2 : List Role := [roleA, roleB]

/-- A user with a single non-expiring membership in `roleA`. -/
def uC2 : User := ⟨8, false, none, none, [⟨roleA, none⟩]⟩

/-- A parentless active role. -/
def roleC3 : Role := ⟨7, 0, true, none⟩

/-- A user whose only role membership expired at time 0. -/
def uC3 : User := ⟨9, false, none, none, [⟨roleC3, some 0⟩]⟩

/-- A non-public resource in category 1, not owned by `uC3`. -/
def resC3 : Resource :=
  ⟨50, 1, 2, ownerDept0, "t", "c", false, false, "documents", "document"⟩

/-- A database where `roleC3` has an ALL-scope unconditioned allow grant
for READ on category 1. -/
def dbC3 : DB :=
  ⟨[roleC3], [⟨7, 1, .read, .all, .absent, true⟩], [], [], []⟩

/-- An archived (and even public) resource. -/
def archRes : Resource :=
  ⟨30, 1, 2, ownerDept0, "t", "c", true, true, "documents", "document"⟩

/-- A database holding only the archived resource and its category. -/
def dbC7 : DB := ⟨[], [], [], [archRes], [⟨1, "documents"⟩]⟩

/-- A resource owned by user 2, used for grant scenarios. -/
def resC9 : Resource :=
  ⟨40, 1, 2, ownerDept0, "t", "c", false, false, "documents", "document"⟩

/-- A database holding one pre-existing deny override row for user 7 on
resource 40. -/
def dbC9 : DB := ⟨[], [], [⟨7, 40, .read, false, none, 1, none⟩], [], []⟩

/-- `dbC9` after the owner (user 2) grants READ on resource 40 to
user 9 at time 5: the fresh allow row is appended. -/
def dbC9After : DB :=
  ⟨[], [], [⟨7, 40, .read, false, none, 1, none⟩,
            ⟨9, 40, .read, true, some 2, 5, none⟩], [], []⟩

/-- A password of 72 `a` characters. -/
def pw72 : String := ⟨List.replicate 72 'a'⟩

/-- A password of 73 `a` characters; it agrees with `pw72` (and with
itself) on the first 72 characters. -/
def pw73 : String := ⟨List.replicate 73 'a'⟩

/-- The spec's reading (§4.5) of when one condition entry holds:
`resource.is_archived` by boolean equality with the archived flag,
`user.department.code` by string equality with the actor's department
code (absent department fails), any other key ignored.  Stated as a
per-entry predicate to compare with the code's sequential loop. -/
def specEntryHolds (u : User) (r : Resource) (kv : String × JVal) : Bool :=
  if kv.1 == "resource.is_archived" then pyEqBoolJ r.is_archived kv.2
  else if kv.1 == "user.department.code" then
    match u.department with
    | none => false
    | some d => pyEqStrJ d.code kv.2
  else true

/-! ## Theorems -/

theorem condEntryLoop_eq_all (u : User) (r : Resource) :
    ∀ es : List (String × JVal),
      condEntryLoop u r es = es.all (specEntryHolds u r)
  | [] => rfl
  | (k, v) :: tl => by
    have ih := condEntryLoop_eq_all u r tl
    simp only [condEntryLoop, List.all_cons, specEntryHolds]
    cases h1 : (k == "resource.is_archived") with
    | true => cases hb : pyEqBoolJ r.is_archived v <;> simp [hb, ih]
    | false =>
      cases h2 : (k == "user.department.code") with
      | true =>
        cases hd : u.department with
        | none => simp
        | some d => cases hs : pyEqStrJ d.code v <;> simp [hs, ih]
      | false => simp [ih]

theorem condEntryLoop_skip_unrecognized (u : User) (r : Resource)
    (k : String) (v : JVal)
    (h1 : k ≠ "resource.is_archived") (h2 : k ≠ "user.department.code") :
    ∀ pre post : List (String × JVal),
      condEntryLoop u r (pre ++ (k, v) :: post) =
        condEntryLoop u r (pre ++ post) := by
  intro pre post
  rw [condEntryLoop_eq_all, condEntryLoop_eq_all, List.all_append,
    List.all_append, List.all_cons]
  have hk : specEntryHolds u r (k, v) = true := by
    simp [specEntryHolds, h1, h2]
  rw [hk]
  simp

/-- C4 — counterexample to the claim as stated: department id `0` is
non-null on both sides and the two departments are equal, yet the
DEPARTMENT scope does not match, because `_check_scope` guards with
Python truthiness (`if user.department_id and
resource.owner.department_id`) under which `0` is falsy. -/
theorem c4_department_zero_counterexample :
    uDept0.department_id ≠ none ∧
    resDept0.owner.department_id ≠ none ∧
    uDept0.department_id = resDept0.owner.department_id ∧
    checkScope uDept0 resDept0 .department = false := by
  decide

/-- C4 (amended) — a DEPARTMENT-scope grant matches iff both the
actor's and the resource owner's department ids are non-null AND
non-zero (Python truthiness) and equal; whenever either side is null
the scope does not match, including the both-null case. -/
theorem c4_department_scope (u : User) (r : Resource) :
    (checkScope u r .department = true ↔
      (∃ d, u.department_id = some d ∧ d ≠ 0) ∧
      (∃ e, r.owner.department_id = some e ∧ e ≠ 0) ∧
      u.department_id = r.owner.department_id) ∧
    (u.department_id = none ∨ r.owner.department_id = none →
      checkScope u r .department = false) := by
  constructor
  · cases hu : u.department_id with
    | none => simp [checkScope, natTruthy, hu]
    | some d =>
      cases hr : r.owner.department_id with
      | none => simp [checkScope, natTruthy, hu, hr]
      | some e =>
        by_cases hd : d = 0
        · simp [checkScope, natTruthy, hu, hr, hd]
        · by_cases he : e = 0
          · simp [checkScope, natTruthy, hu, hr, hd, he]
          · simp [checkScope, natTruthy, hu, hr, hd, he]
  · intro h
    rcases h with h | h <;> simp [checkScope, natTruthy, h]

/-- C4 witness: a concrete actor with no department never matches a
DEPARTMENT-scope grant. -/
theorem c4_department_scope_witness :
    checkScope uNoDept resDept0 .department = false :=
  (c4_department_scope uNoDept resDept0).2 (Or.inl rfl)

/-- C5 — counterexample to the claim as stated: a payload that is valid
JSON but not the expected key→value mapping shape (e.g. the string
`"[1, 2]"`, modelled by `CondPayload.nonObj`) does not pass as "no
condition": `.items()` raises `AttributeError`, which the
`except json.JSONDecodeError` handler does not catch, so the evaluation
errors instead of returning pass. -/
theorem c5_nonobject_payload_counterexample :
    checkConditions uCond resCond CondPayload.nonObj = Except.error () ∧
    checkConditions uCond resCond CondPayload.nonObj ≠ Except.ok true := by
  constructor <;> simp [checkConditions]

/-- C5 (amended) — an empty/absent payload passes; a payload that fails
JSON parsing is treated as no condition and passes; but a payload that
parses as JSON to a non-mapping raises an uncaught error rather than
passing; unrecognized keys never cause a match failure; and an object
payload passes iff every entry with a recognized key holds
(`resource.is_archived` by boolean equality with the archived flag,
`user.department.code` by string equality with the actor's department
code, failing when the actor has no department). -/
theorem c5_condition_evaluation (u : User) (r : Resource) :
    checkConditions u r .absent = .ok true ∧
    checkConditions u r .invalidJson = .ok true ∧
    checkConditions u r .nonObj = .error () ∧
    (∀ (k : String) (v : JVal) (pre post : List (String × JVal)),
      k ≠ "resource.is_archived" → k ≠ "user.department.code" →
      checkConditions u r (.obj (pre ++ (k, v) :: post)) =
        checkConditions u r (.obj (pre ++ post))) ∧
    (∀ es : List (String × JVal),
      checkConditions u r (.obj es) = .ok true ↔
        ∀ kv ∈ es, specEntryHolds u r kv = true) := by
  refine ⟨rfl, rfl, rfl, ?_, ?_⟩
  · intro k v pre post h1 h2
    simp only [checkConditions, Except.ok.injEq]
    exact condEntryLoop_skip_unrecognized u r k v h1 h2 pre post
  · intro es
    simp only [checkConditions, Except.ok.injEq, condEntryLoop_eq_all,
      List.all_eq_true]

/-- C5 witness: concrete instances of the amended claim — an
unrecognized key is dropped without effect, and an object payload whose
recognized key fails makes the condition fail. -/
theorem c5_condition_evaluation_witness :
    checkConditions uCond resCond
        (.obj ([("resource.is_archived", .jbool false)] ++
          ("unknown.key", .jnum 3) :: [])) =
      checkConditions uCond resCond
        (.obj ([("resource.is_archived", .jbool false)] ++ [])) ∧
    checkConditions uCond resCond
        (.obj [("user.department.code", .jstr "ENG")]) ≠ .ok true := by
  constructor
  · exact (c5_condition_evaluation uCond resCond).2.2.2.1 "unknown.key"
      (.jnum 3) [("resource.is_archived", .jbool false)] [] (by decide)
      (by decide)
  · intro h
    have hall := ((c5_condition_evaluation uCond resCond).2.2.2.2
        [("user.department.code", .jstr "ENG")]).mp h
      ("user.department.code", .jstr "ENG") (by simp)
    simp [specEntryHolds, uCond] at hall

/-- C8 — revoking a token with a future expiry inserts an entry into the
revocation store keyed by the token identifier with TTL equal to the
remaining lifetime `exp - now`, after which the revocation check rejects
the token for the rest of its lifetime even though the signature
validated (`decode_token` succeeded before this point); revoking an
already-expired token is a success that inserts nothing. -/
theorem c8_revocation (st : RedisStore) (now : Int) (jti : String)
    (exp : Int) (hjti : jti ≠ "") (hexp : exp ≠ 0) :
    (now < exp →
      logoutUser st now (some jti) (some exp) =
        .ok (true, blacklistToken st now jti (exp - now)) ∧
      ∀ t : Int, t < exp →
        isTokenBlacklisted (blacklistToken st now jti (exp - now)) t jti
          = true) ∧
    (exp ≤ now →
      logoutUser st now (some jti) (some exp) = .ok (true, st)) := by
  constructor
  · intro hlt
    have hpos : ¬(exp - now ≤ 0) := by omega
    constructor
    · simp [logoutUser, strTruthy, intTruthy, hjti, hexp, hpos]
    · intro t ht
      simp only [isTokenBlacklisted, blacklistToken, setex, existsKey,
        List.any_cons, Bool.or_eq_true, Bool.and_eq_true, beq_iff_eq,
        decide_eq_true_eq]
      exact Or.inl ⟨trivial, by omega⟩
  · intro hle
    have hpos : exp - now ≤ 0 := by omega
    simp [logoutUser, strTruthy, intTruthy, hjti, hexp, hpos]

/-- C8 witness: a concrete revocation at time 100 of a token expiring at
130 inserts a 30-second entry that is still rejected at time 120, and a
revocation after expiry leaves the store unchanged. -/
theorem c8_revocation_witness :
    logoutUser ⟨[]⟩ 100 (some "abc") (some 130) =
      .ok (true, blacklistToken ⟨[]⟩ 100 "abc" ((130 : Int) - 100)) ∧
    isTokenBlacklisted (blacklistToken ⟨[]⟩ 100 "abc" ((130 : Int) - 100))
      120 "abc" = true ∧
    logoutUser ⟨[]⟩ 200 (some "abc") (some 130) = .ok (true, ⟨[]⟩) :=
  ⟨((c8_revocation ⟨[]⟩ 100 "abc" 130 (by decide) (by decide)).1
      (by decide)).1,
   ((c8_revocation ⟨[]⟩ 100 "abc" 130 (by decide) (by decide)).1
      (by decide)).2 120 (by decide),
   (c8_revocation ⟨[]⟩ 200 "abc" 130 (by decide) (by decide)).2 (by decide)⟩

/-- C1 — `check_permission` is a strict precedence chain: superuser,
then effective personal override, then ownership, then public-read
(READ only), then role-based grants, with the first definite rule
determining the verdict and later rules never consulted; a superuser
gets allow for every (resource, action) with audit reason `superuser`,
and when no rule matches the role step yields deny (reason `denied`). -/
theorem c1_precedence_chain (db : DB) (now : Int) (u : User)
    (r : Resource) (a : ActionType) :
    (u.is_superuser = true →
      checkPermission db now u r a true =
        .ok (true, [mkAudit u r a true (some "superuser")]) ∧
      checkPermission db now u r a false = .ok (true, [])) ∧
    (u.is_superuser = false →
      ∀ b, checkUserPermission db now u.id r.id a = some b →
        checkPermission db now u r a true =
          .ok (b, [mkAudit u r a b (some "personal")])) ∧
    (u.is_superuser = false →
      checkUserPermission db now u.id r.id a = none →
      r.owner_id = u.id →
      checkPermission db now u r a true =
        .ok (true, [mkAudit u r a true (some "owner")])) ∧
    (u.is_superuser = false →
      checkUserPermission db now u.id r.id a = none →
      r.owner_id ≠ u.id → r.is_public = true → a = .read →
      checkPermission db now u r a true =
        .ok (true, [mkAudit u r a true (some "public")])) ∧
    (u.is_superuser = false →
      checkUserPermission db now u.id r.id a = none →
      r.owner_id ≠ u.id → (r.is_public = false ∨ a ≠ .read) →
      checkPermission db now u r a true =
        (checkRolePermissions db u r a).map (fun b =>
          (b, [mkAudit u r a b
            (some (if b then "role" else "denied"))]))) ∧
    (u.is_superuser = false →
      checkUserPermission db now u.id r.id a = none →
      r.owner_id ≠ u.id → (r.is_public = false ∨ a ≠ .read) →
      checkRolePermissions db u r a = .ok false →
      checkPermission db now u r a true =
        .ok (false, [mkAudit u r a false (some "denied")])) := by
  refine ⟨?_, ?_, ?_, ?_, ?_, ?_⟩
  · intro hsu
    exact ⟨by simp [checkPermission, hsu], by simp [checkPermission, hsu]⟩
  · intro hsu b hb
    simp [checkPermission, hsu, hb]
  · intro hsu hb hown
    simp [checkPermission, hsu, hb, hown]
  · intro hsu hb hown hpub ha
    subst ha
    simp [checkPermission, hsu, hb, hown, hpub]
  · intro hsu hb hown hcase
    have hpa : (r.is_public && (a == ActionType.read)) = false := by
      rcases hcase with h | h <;> simp [h]
    cases hrp : checkRolePermissions db u r a with
    | error e => simp [checkPermission, hsu, hb, hown, hpa, hrp, Except.map]
    | ok v => simp [checkPermission, hsu, hb, hown, hpa, hrp, Except.map]
  · intro hsu hb hown hcase hrp
    have hpa : (r.is_public && (a == ActionType.read)) = false := by
      rcases hcase with h | h <;> simp [h]
    simp [checkPermission, hsu, hb, hown, hpa, hrp]

/-- C1 witness: on a concrete database the superuser is allowed READ
with reason `superuser` (and allowed DELETE with logging off), the
override row denies `plainUser` READ with reason `personal`, and with no
matching rule at all `plainUser`'s DELETE is denied with reason
`denied`. -/
theorem c1_precedence_chain_witness :
    checkPermission dbMain 0 suUser resMain .read true =
      .ok (true, [mkAudit suUser resMain .read true (some "superuser")]) ∧
    checkPermission dbMain 0 suUser resMain .delete false = .ok (true, []) ∧
    checkPermission dbMain 0 plainUser resMain .read true =
      .ok (false, [mkAudit plainUser resMain .read false (some "personal")]) ∧
    checkPermission dbMain 0 plainUser resMain .delete true =
      .ok (false,
        [mkAudit plainUser resMain .delete false (some "denied")]) := by
  refine ⟨((c1_precedence_chain dbMain 0 suUser resMain .read).1 rfl).1,
    ((c1_precedence_chain dbMain 0 suUser resMain .delete).1 rfl).2,
    (c1_precedence_chain dbMain 0 plainUser resMain .read).2.1 rfl false rfl,
    (c1_precedence_chain dbMain 0 plainUser resMain
      .delete).2.2.2.2.2 rfl rfl (by decide) (Or.inl rfl) ?_⟩
  simp [checkRolePermissions, getAllUserRoles, userRolesRel, plainUser,
    expandRoles, sortRolesDesc, roleLoop, dbMain]

theorem nodup_step {acc : List Role} {processed : Finset Nat} {r : Role}
    (h1 : (acc.map Role.id).Nodup) (h2 : ∀ x ∈ acc, x.id ∈ processed)
    (hmem : r.id ∉ processed) :
    ((acc ++ [r]).map Role.id).Nodup ∧
    (∀ x ∈ acc ++ [r], x.id ∈ insert r.id processed) := by
  constructor
  · have hr : r.id ∉ acc.map Role.id := by
      intro hc
      obtain ⟨x, hx, hxid⟩ := List.mem_map.mp hc
      exact hmem (hxid ▸ h2 x hx)
    simp [List.nodup_append, h1, hr]
  · intro x hx
    rcases List.mem_append.mp hx with hx' | hx'
    · exact Finset.mem_insert_of_mem (h2 x hx')
    · rcases List.mem_singleton.mp hx' with rfl
      exact Finset.mem_insert_self _ _

theorem expandRoles_nodup (table : List Role) :
    ∀ (queue : List Role) (processed : Finset Nat) (acc : List Role),
      (acc.map Role.id).Nodup → (∀ x ∈ acc, x.id ∈ processed) →
      ((expandRoles table queue processed acc).map Role.id).Nodup := by
  intro queue processed acc
  induction queue, processed, acc using expandRoles.induct table with
  | case1 processed acc =>
    intro h1 _
    simpa [expandRoles] using h1
  | case2 r rest processed acc hmem ih =>
    intro h1 h2
    rw [expandRoles, if_pos hmem]
    exact ih h1 h2
  | case3 r rest processed acc hmem ih =>
    intro h1 h2
    rw [expandRoles, if_neg hmem]
    exact ih (nodup_step h1 h2 hmem).1 (nodup_step h1 h2 hmem).2

theorem expandRoles_covers (table : List Role) :
    ∀ (queue : List Role) (processed : Finset Nat) (acc : List Role),
      (∀ x ∈ acc, x ∈ expandRoles table queue processed acc) ∧
      (∀ q ∈ queue, q.id ∈ processed ∨
        q.id ∈ (expandRoles table queue processed acc).map Role.id) := by
  intro queue processed acc
  induction queue, processed, acc using expandRoles.induct table with
  | case1 processed acc =>
    rw [expandRoles]
    exact ⟨fun x hx => hx, fun q hq => absurd hq (List.not_mem_nil q)⟩
  | case2 r rest processed acc hmem ih =>
    rw [expandRoles, if_pos hmem]
    refine ⟨ih.1, fun q hq => ?_⟩
    rcases List.mem_cons.mp hq with rfl | hq'
    · exact Or.inl hmem
    · exact ih.2 q hq'
  | case3 r rest processed acc hmem ih =>
    rw [expandRoles, if_neg hmem]
    have hacc : ∀ x ∈ acc,
        x ∈ expandRoles table (rest ++ parentToEnqueue table r)
          (insert r.id processed) (acc ++ [r]) :=
      fun x hx => ih.1 x (List.mem_append_left _ hx)
    have hrres : r ∈ expandRoles table (rest ++ parentToEnqueue table r)
        (insert r.id processed) (acc ++ [r]) :=
      ih.1 r (List.mem_append_right _ (List.mem_singleton_self r))
    refine ⟨hacc, ?_⟩
    intro q hq
    rcases List.mem_cons.mp hq with heq | hq'
    · subst heq
      exact Or.inr (List.mem_map_of_mem Role.id hrres)
    · rcases ih.2 q (List.mem_append_left _ hq') with h | h
      · rcases Finset.mem_insert.mp h with h' | h'
        · rw [h']
          exact Or.inr (List.mem_map_of_mem Role.id hrres)
        · exact Or.inl h'
      · exact Or.inr h

theorem expandRoles_mem_src (table : List Role) :
    ∀ (queue : List Role) (processed : Finset Nat) (acc : List Role),
      ∀ x ∈ expandRoles table queue processed acc,
        x ∈ acc ∨ x ∈ queue ∨ (x ∈ table ∧ x.is_active = true) := by
  intro queue processed acc
  induction queue, processed, acc using expandRoles.induct table with
  | case1 processed acc =>
    rw [expandRoles]
    exact fun x hx => Or.inl hx
  | case2 r rest processed acc hmem ih =>
    rw [expandRoles, if_pos hmem]
    intro x hx
    rcases ih x hx with h | h | h
    · exact Or.inl h
    · exact Or.inr (Or.inl (List.mem_cons_of_mem r h))
    · exact Or.inr (Or.inr h)
  | case3 r rest processed acc hmem ih =>
    rw [expandRoles, if_neg hmem]
    intro x hx
    rcases ih x hx with h | h | h
    · rcases List.mem_append.mp h with h' | h'
      · exact Or.inl h'
      · rcases List.mem_singleton.mp h' with rfl
        exact Or.inr (Or.inl (List.mem_cons_self x rest))
    · rcases List.mem_append.mp h with h' | h'
      · exact Or.inr (Or.inl (List.mem_cons_of_mem r h'))
      · exact Or.inr (Or.inr (mem_parentToEnqueue h'))
    · exact Or.inr (Or.inr h)

theorem pickLatest_none {l : List UserPermission}
    (h : pickLatest l = none) : l = [] := by
  cases l with
  | nil => rfl
  | cons q qs =>
    simp only [pickLatest] at h
    cases hrec : pickLatest qs with
    | none => simp only [hrec] at h; exact absurd h (by simp)
    | some m =>
      simp only [hrec] at h
      by_cases hc : q.granted_at < m.granted_at
      · rw [if_pos hc] at h; exact absurd h (by simp)
      · rw [if_neg hc] at h; exact absurd h (by simp)

theorem pickLatest_mem :
    ∀ {l : List UserPermission} {p : UserPermission},
      pickLatest l = some p → p ∈ l
  | [], p, h => absurd h (by simp [pickLatest])
  | q :: qs, p, h => by
    simp only [pickLatest] at h
    cases hrec : pickLatest qs with
    | none =>
      simp only [hrec] at h
      injection h with h
      exact h ▸ List.mem_cons_self q qs
    | some m =>
      simp only [hrec] at h
      by_cases hc : q.granted_at < m.granted_at
      · rw [if_pos hc] at h
        injection h with h
        subst h
        exact List.mem_cons_of_mem q (pickLatest_mem hrec)
      · rw [if_neg hc] at h
        injection h with h
        exact h ▸ List.mem_cons_self q qs

theorem pickLatest_max :
    ∀ {l : List UserPermission} {p : UserPermission},
      pickLatest l = some p → ∀ q ∈ l, q.granted_at ≤ p.granted_at
  | [], p, h => absurd h (by simp [pickLatest])
  | q :: qs, p, h => by
    intro x hx
    simp only [pickLatest] at h
    cases hrec : pickLatest qs with
    | none =>
      simp only [hrec] at h
      injection h with h
      have hnil := pickLatest_none hrec
      subst hnil
      rcases List.mem_singleton.mp hx with rfl
      exact h ▸ le_refl _
    | some m =>
      simp only [hrec] at h
      by_cases hc : q.granted_at < m.granted_at
      · rw [if_pos hc] at h
        injection h with h
        subst h
        rcases List.mem_cons.mp hx with rfl | hx'
        · exact le_of_lt hc
        · exact pickLatest_max hrec x hx'
      · rw [if_neg hc] at h
        injection h with h
        subst h
        rcases List.mem_cons.mp hx with rfl | hx'
        · exact le_refl _
        · exact le_trans (pickLatest_max hrec x hx') (le_of_not_lt hc)

theorem filter_filter_of_imp {α : Type} (f g : α → Bool)
    (h : ∀ x, g x = true → f x = true) :
    ∀ l : List α, (l.filter f).filter g = l.filter g := by
  intro l
  induction l with
  | nil => rfl
  | cons x xs ih =>
    cases hg : g x with
    | true =>
      have hf := h x hg
      simp [List.filter_cons, hf, hg, ih]
    | false => cases hf : f x <;> simp [List.filter_cons, hf, hg, ih]

theorem roleLoop_up_invariant (db : DB) (ups : List UserPermission)
    (u : User) (r : Resource) (a : ActionType) :
    ∀ rs : List Role,
      roleLoop { db with user_permissions := ups } u r a rs =
        roleLoop db u r a rs := by
  intro rs
  induction rs with
  | nil => rfl
  | cons role rs ih =>
    simp only [roleLoop]
    rw [ih]

theorem checkRolePermissions_up_invariant (db : DB)
    (ups : List UserPermission) (u : User) (r : Resource) (a : ActionType) :
    checkRolePermissions { db with user_permissions := ups } u r a =
      checkRolePermissions db u r a := by
  simp only [checkRolePermissions]
  exact roleLoop_up_invariant db ups u r a _

/-- C6 — the personal-override step considers only rows whose expiry is
null or in the future; when it answers, the answer is the `is_allowed`
flag of a matching effective row whose `granted_at` is maximal among
matching effective rows; and deleting the matching expired rows from the
database leaves the whole decision unchanged — the chain falls through
to ownership, public-read and role rules as if they did not exist. -/
theorem c6_effective_override (db : DB) (now : Int) (u : User)
    (r : Resource) (a : ActionType) :
    (∀ b, checkUserPermission db now u.id r.id a = some b →
      ∃ p, p ∈ db.user_permissions ∧
        matchesTriple u.id r.id a p = true ∧
        effectiveRow now p = true ∧
        p.is_allowed = b ∧
        ∀ q ∈ db.user_permissions, matchesTriple u.id r.id a q = true →
          effectiveRow now q = true → q.granted_at ≤ p.granted_at) ∧
    (∀ logAttempt : Bool,
      checkPermission { db with user_permissions :=
          db.user_permissions.filter (fun p =>
            !(matchesTriple u.id r.id a p && !effectiveRow now p)) }
        now u r a logAttempt =
      checkPermission db now u r a logAttempt) := by
  constructor
  · intro b hb
    simp only [checkUserPermission, Option.map_eq_some'] at hb
    obtain ⟨p, hp, hpb⟩ := hb
    have hpmem := pickLatest_mem hp
    rw [List.mem_filter] at hpmem
    obtain ⟨hpdb, hpred⟩ := hpmem
    rw [Bool.and_eq_true] at hpred
    obtain ⟨hm, he⟩ := hpred
    refine ⟨p, hpdb, hm, he, hpb, ?_⟩
    intro q hq hqm hqe
    exact pickLatest_max hp q
      (List.mem_filter.mpr ⟨hq, by simp [hqm, hqe]⟩)
  · intro logAttempt
    generalize hF : db.user_permissions.filter (fun p =>
      !(matchesTriple u.id r.id a p && !effectiveRow now p)) = F
    have hff : F.filter (fun p =>
        matchesTriple u.id r.id a p && effectiveRow now p) =
        db.user_permissions.filter (fun p =>
          matchesTriple u.id r.id a p && effectiveRow now p) := by
      rw [← hF]
      apply filter_filter_of_imp
      intro x hx
      rw [Bool.and_eq_true] at hx
      obtain ⟨hm, he⟩ := hx
      simp [hm, he]
    have h1 : checkUserPermission { db with user_permissions := F }
        now u.id r.id a = checkUserPermission db now u.id r.id a := by
      simp only [checkUserPermission]
      rw [hff]
    have h2 := checkRolePermissions_up_invariant db F u r a
    simp only [checkPermission, h1, h2]

/-- C6 witness: in `dbC6` (an expired allow override granted later and
an effective deny override granted earlier) the override step finds an
effective matching deny row, and deleting the expired matching rows
does not change the decision. -/
theorem c6_effective_override_witness :
    dbC6.user_permissions.any (fun p =>
      matchesTriple plainUser.id resMain.id .read p &&
      effectiveRow 100 p && (p.is_allowed == false)) = true ∧
    checkPermission { dbC6 with user_permissions :=
        dbC6.user_permissions.filter (fun p =>
          !(matchesTriple plainUser.id resMain.id .read p &&
            !effectiveRow 100 p)) } 100 plainUser resMain .read true =
      checkPermission dbC6 100 plainUser resMain .read true := by
  constructor
  · obtain ⟨p, hp, hm, he, ha, -⟩ :=
      (c6_effective_override dbC6 100 plainUser resMain .read).1 false rfl
    refine List.any_eq_true.mpr ⟨p, hp, ?_⟩
    simp [hm, he, ha]
  · exact (c6_effective_override dbC6 100 plainUser resMain .read).2 true

/-- C2 — role hierarchy expansion terminates for every actor and role
table (the function is total: its recursion is well-founded by
`expandMeasure`, with no acyclicity assumption on parent links), the
returned list contains each role identity at most once, and every role
in the result beyond the actor's direct memberships is an active table
role — so an inactive parent terminates its branch without removing the
child (direct memberships always appear in the result, by the second
conjunct). -/
theorem c2_hierarchy_expansion (table : List Role) (user : User) :
    ((getAllUserRoles table user).map Role.id).Nodup ∧
    (∀ m ∈ user.memberships,
      m.role.id ∈ (getAllUserRoles table user).map Role.id) ∧
    (∀ x ∈ getAllUserRoles table user,
      x ∈ userRolesRel user ∨ (x ∈ table ∧ x.is_active = true)) := by
  refine ⟨?_, ?_, ?_⟩
  · exact expandRoles_nodup table (userRolesRel user) ∅ [] (by simp) (by simp)
  · intro m hm
    rcases (expandRoles_covers table (userRolesRel user) ∅ []).2 m.role
        (List.mem_map_of_mem Membership.role hm) with h | h
    · exact absurd h (Finset.not_mem_empty _)
    · exact h
  · intro x hx
    rcases expandRoles_mem_src table (userRolesRel user) ∅ [] x hx
      with h | h | h
    · exact absurd h (List.not_mem_nil x)
    · exact Or.inl h
    · exact Or.inr h

/-- C2 witness: on the cyclic table 1 → 2 → 1 the expansion evaluates
to exactly `[1, 2]` — it terminates, has no duplicate, and keeps the
direct membership role. -/
theorem c2_hierarchy_expansion_witness :
    ((getAllUserRoles tblC2 uC2).map Role.id).Nodup ∧
    roleA.id ∈ (getAllUserRoles tblC2 uC2).map Role.id ∧
    (getAllUserRoles tblC2 uC2).map Role.id = [1, 2] := by
  refine ⟨(c2_hierarchy_expansion tblC2 uC2).1,
    (c2_hierarchy_expansion tblC2 uC2).2.1 ⟨roleA, none⟩ (by simp [uC2]), ?_⟩
  simp [getAllUserRoles, userRolesRel, uC2, tblC2, roleA, roleB,
    expandRoles, parentToEnqueue, natTruthy, rolesGet]

/-- C3 — the code at the failing input: `uC3`'s only role membership
expired at time 0, the clock reads 100, yet the decision engine still
expands the membership's role (the `User.roles` relationship joins
`user_roles` without any `expires_at` filter, and `_get_all_user_roles`
never consults membership expiry), and an allow grant on that role makes
`check_permission` return allow where the claim — and the spec — require
the expired membership to contribute nothing. -/
theorem c3_expired_membership_failing_input :
    uC3.memberships = [⟨roleC3, some 0⟩] ∧
    ((0 : Int) < 100) ∧
    uC3.is_superuser = false ∧
    checkUserPermission dbC3 100 uC3.id resC3.id .read = none ∧
    resC3.owner_id ≠ uC3.id ∧
    resC3.is_public = false ∧
    (getAllUserRoles dbC3.roles uC3).map Role.id = [7] ∧
    checkPermission dbC3 100 uC3 resC3 .read false = .ok (true, []) := by
  refine ⟨rfl, by decide, rfl, rfl, by decide, rfl, ?_, ?_⟩
  · simp [getAllUserRoles, userRolesRel, uC3, dbC3, roleC3, expandRoles,
      parentToEnqueue, natTruthy]
  · simp [checkPermission, checkUserPermission, uC3, dbC3, resC3, roleC3,
      matchesTriple, effectiveRow, pickLatest, checkRolePermissions,
      getAllUserRoles, userRolesRel, expandRoles, parentToEnqueue,
      natTruthy, sortRolesDesc, insertRoleDesc, roleLoop, grantLoop,
      checkScope, checkConditions]

theorem filterAccessible_subset (db : DB) (now : Int) (u : User) :
    ∀ (l out : List Resource),
      filterAccessible db now u l = .ok out → ∀ x ∈ out, x ∈ l := by
  intro l
  induction l with
  | nil =>
    intro out h x hx
    simp only [filterAccessible] at h
    injection h with h
    subst h
    exact absurd hx (List.not_mem_nil x)
  | cons r rs ih =>
    intro out h x hx
    simp only [filterAccessible] at h
    cases hcp : checkPermission db now u r .read false with
    | error e =>
      rw [hcp] at h
      exact absurd h (by simp)
    | ok pr =>
      obtain ⟨b, lg⟩ := pr
      rw [hcp] at h
      cases b with
      | true =>
        cases hrec : filterAccessible db now u rs with
        | error e => rw [hrec] at h; exact absurd h (by simp [Except.map])
        | ok l' =>
          rw [hrec] at h
          simp only [Except.map, Except.ok.injEq] at h
          subst h
          rcases List.mem_cons.mp hx with heq | hx'
          · exact heq ▸ List.mem_cons_self r rs
          · exact List.mem_cons_of_mem r (ih l' hrec x hx')
      | false => exact List.mem_cons_of_mem r (ih out h x hx)

/-- C7 — for every archived resource, the single-resource read, update
and delete endpoints answer 404 before the decision engine is consulted
(no audit entry is produced and the database is untouched), and the list
endpoint never includes it, so no code path — the public-read rule
included — grants access to an archived resource. -/
theorem c7_archived_invisible (db : DB) (now : Int) (u : User) (rid : Nat)
    (res : Resource) (t c : Option String) (pb : Option Bool)
    (cc : Option String) :
    db.resources.find? (fun x => x.id == rid) = some res →
    res.is_archived = true →
    getResource db now u rid = (.notFound, []) ∧
    updateResource db now u rid t c pb = (.notFound, db, []) ∧
    deleteResource db now u rid = (.notFound, db, []) ∧
    (∀ st out, listResources db now u cc = .ok (st, out) → res ∉ out) := by
  intro hfind harch
  refine ⟨?_, ?_, ?_, ?_⟩
  · simp [getResource, hfind, harch]
  · simp [updateResource, hfind, harch]
  · simp [deleteResource, hfind, harch]
  · intro st out h hmem
    have hbase : ∀ l : List Resource, (∀ x ∈ l, x ∈ db.resources.filter
        (fun r => !r.is_archived)) → res ∈ l → False := by
      intro l hsub hin
      have := List.of_mem_filter (hsub res hin)
      rw [harch] at this
      exact absurd this (by simp)
    cases cc with
    | none =>
      simp only [listResources] at h
      cases hfa : filterAccessible db now u
          (db.resources.filter (fun r => !r.is_archived)) with
      | error e => rw [hfa] at h; exact absurd h (by simp [Except.map])
      | ok l' =>
        rw [hfa] at h
        simp only [Except.map, Except.ok.injEq, Prod.mk.injEq] at h
        exact hbase l' (filterAccessible_subset db now u _ l' hfa)
          (h.2 ▸ hmem)
    | some code =>
      simp only [listResources] at h
      cases hcat : db.categories.find? (fun cat => cat.code == code) with
      | none =>
        rw [hcat] at h
        dsimp only at h
        simp only [Except.ok.injEq, Prod.mk.injEq] at h
        rw [← h.2] at hmem
        exact absurd hmem (List.not_mem_nil res)
      | some cat =>
        rw [hcat] at h
        dsimp only at h
        cases hfa : filterAccessible db now u
            ((db.resources.filter (fun r => !r.is_archived)).filter
              (fun r => r.category_id == cat.id)) with
        | error e => rw [hfa] at h; exact absurd h (by simp [Except.map])
        | ok l' =>
          rw [hfa] at h
          simp only [Except.map, Except.ok.injEq, Prod.mk.injEq] at h
          have hsub := filterAccessible_subset db now u _ l' hfa
          exact hbase l'
            (fun x hx => List.mem_of_mem_filter (hsub x hx)) (h.2 ▸ hmem)

/-- C7 witness: in `dbC7` the archived (public) resource 30 is 404 for
read, update and delete with no audit entry and no database change, and
the list endpoint returns the empty list, which does not contain it. -/
theorem c7_archived_invisible_witness :
    getResource dbC7 0 plainUser 30 = (.notFound, []) ∧
    updateResource dbC7 0 plainUser 30 none none none =
      (.notFound, dbC7, []) ∧
    deleteResource dbC7 0 plainUser 30 = (.notFound, dbC7, []) ∧
    archRes ∉ ([] : List Resource) := by
  have h := c7_archived_invisible dbC7 0 plainUser 30 archRes none none
    none none rfl rfl
  exact ⟨h.1, h.2.1, h.2.2.1, h.2.2.2 .ok []
    (by simp [listResources, dbC7, archRes, filterAccessible, Except.map])⟩

theorem setFirstMatch_false_mem (uid rid : Nat) (a : ActionType)
    (gid : Nat) (now : Int) (exp : Option Int) :
    ∀ (l : List UserPermission) (p : UserPermission),
      p ∈ setFirstMatch uid rid a gid now exp l →
      p.is_allowed = false → p ∈ l := by
  intro l
  induction l with
  | nil =>
    intro p hp _
    exact absurd hp (by simp [setFirstMatch])
  | cons q qs ih =>
    intro p hp hpf
    simp only [setFirstMatch] at hp
    by_cases hm : matchesTriple uid rid a q = true
    · rw [if_pos hm] at hp
      rcases List.mem_cons.mp hp with heq | hp'
      · rw [heq] at hpf
        exact absurd hpf (by simp)
      · exact List.mem_cons_of_mem q hp'
    · rw [if_neg hm] at hp
      rcases List.mem_cons.mp hp with heq | hp'
      · exact heq ▸ List.mem_cons_self q qs
      · exact List.mem_cons_of_mem q (ih p hp' hpf)

/-- C9 — `grant_user_permission` only ever creates or refreshes an
override row with `is_allowed = True`: every deny row present after the
call was already present before it; and when the granter can neither
SHARE the resource nor owns it, the call returns `False` and the
override table is unchanged. -/
theorem c9_grant_no_deny (db : DB) (now : Int) (granter : User)
    (tuid : Nat) (res : Resource) (act : ActionType) (exp : Option Int) :
    (∀ out : Bool × DB,
      grantUserPermission db now granter tuid res act exp = .ok out →
      ∀ p ∈ out.2.user_permissions, p.is_allowed = false →
        p ∈ db.user_permissions) ∧
    (∀ lg, checkPermission db now granter res .share false = .ok (false, lg) →
      res.owner_id ≠ granter.id →
      grantUserPermission db now granter tuid res act exp =
        .ok (false, db)) := by
  constructor
  · intro out hout p hp hpf
    simp only [grantUserPermission] at hout
    cases hcp : checkPermission db now granter res .share false with
    | error e => rw [hcp] at hout; exact absurd hout (by simp)
    | ok pr =>
      obtain ⟨canShare, lg⟩ := pr
      rw [hcp] at hout
      dsimp only at hout
      by_cases hcond : (!canShare && res.owner_id != granter.id) = true
      · rw [if_pos hcond] at hout
        injection hout with hout
        rw [← hout] at hp
        exact hp
      · rw [if_neg hcond] at hout
        cases hfind : findFirstPerm tuid res.id act db.user_permissions with
        | some q =>
          rw [hfind] at hout
          dsimp only at hout
          injection hout with hout
          rw [← hout] at hp
          exact setFirstMatch_false_mem tuid res.id act granter.id now exp
            db.user_permissions p hp hpf
        | none =>
          rw [hfind] at hout
          dsimp only at hout
          injection hout with hout
          rw [← hout] at hp
          rcases List.mem_append.mp hp with hp' | hp'
          · exact hp'
          · rcases List.mem_singleton.mp hp' with rfl
            exact absurd hpf (by simp)
  · intro lg hcp hne
    simp only [grantUserPermission, hcp]
    have hcond : (!false && res.owner_id != granter.id) = true := by
      simp [bne_iff_ne, hne]
    rw [if_pos hcond]

/-- C9 witness: `plainUser` (user 6) neither owns resource 40 nor can
SHARE it, so the grant fails and leaves `dbC9` unchanged; and after the
owner's successful grant to user 9 the only deny row of the result was
already present in `dbC9`. -/
theorem c9_grant_no_deny_witness :
    grantUserPermission dbC9 0 plainUser 7 resC9 .read none =
      .ok (false, dbC9) ∧
    (⟨7, 40, .read, false, none, 1, none⟩ : UserPermission) ∈
      dbC9.user_permissions := by
  constructor
  · refine (c9_grant_no_deny dbC9 0 plainUser 7 resC9 .read none).2 []
      ?_ (by decide)
    simp [checkPermission, checkUserPermission, plainUser, dbC9, resC9,
      matchesTriple, effectiveRow, pickLatest, checkRolePermissions,
      getAllUserRoles, userRolesRel, expandRoles, sortRolesDesc, roleLoop]
  · refine (c9_grant_no_deny dbC9 5 ownerDept0 9 resC9 .read none).1
      (true, dbC9After) ?_ ⟨7, 40, .read, false, none, 1, none⟩
      (by simp [dbC9After]) rfl
    rfl

/-- C10 — the code at the failing input: `hash_password` truncates to 72
characters, so the 73-`a` and 72-`a` passwords hash identically; but
`verify_password` does NOT truncate its plain argument, so the 73-`a`
password fails verification against its own stored hash, contradicting
the claim that two passwords agreeing on their first 72 characters
verify against each other's hashes.  `id` stands for the salted
`pbkdf2_sha256` digest, idealized as deterministic and collision-free:
any injective digest gives the same outcomes. -/
theorem c10_hash_truncation_failing_input :
    pyTruncate pw73 72 = pw72 ∧
    hashPassword id pw73 = hashPassword id pw72 ∧
    verifyPassword id pw72 (hashPassword id pw73) = true ∧
    verifyPassword id pw73 (hashPassword id pw73) = false ∧
    verifyPassword id pw73 (hashPassword id pw72) = false := by
  decide

end AccessControl
